import Mathlib

/-!
Verification of the cmd-chat server and client against its specification.

The Python sources are shallowly embedded: dictionaries become association
lists (`List (String × α)` with `alInsert` / `alLookup`), Python sets of
websockets become lists (with `List.filter` for `set.discard`), byte
strings become `List Nat` (each entry < 256) or `String` where the code
treats them as text, wall-clock instants become explicit `Nat`/`Int`
parameters, and fallible code returns `Option`/`Except`.  External library
functions (PEM parsing, Fernet, uuid generation) enter as explicit
function/value parameters of the embedded operations.
-/

namespace CmdChat

/-- Association-list insert mirroring Python dict assignment `d[k] = v`:
overwrite in place if the key exists, else append at the end (Python dicts
preserve insertion order). -/
def alInsert {α : Type} (k : String) (v : α) : List (String × α) → List (String × α)
  | [] => [(k, v)]
  | (k', v') :: t => if k' = k then (k, v) :: t else (k', v') :: alInsert k v t

/-- Association-list lookup mirroring Python `d.get(k)` / `d[k]`. -/
def alLookup {α : Type} (k : String) : List (String × α) → Option α
  | [] => none
  | (k', v) :: t => if k' = k then some v else alLookup k t

/-- Association-list delete mirroring Python `del d[k]` / full key removal;
also used for `set.discard` on the keyed sets. -/
def alErase {α : Type} (k : String) (l : List (String × α)) : List (String × α) :=
  l.filter (fun p => p.1 ≠ k)

/-- Message type enum from `cmd_chat/server/models.py` (`MessageType`). -/
inductive MessageType where
  | text
  | system
  | emoji
  | file
  | command
deriving DecidableEq, Repr

/-- Message record from `cmd_chat/server/models.py` (`Message`).  The wall
clock `timestamp` and the optional `reply_to` / `file_url` fields play no
role in any claim-relevant logic and are carried as plain data. -/
structure Message where
  id : String
  room_id : String
  user_id : String
  username : String
  content : String
  message_type : MessageType := .text
  is_encrypted : Bool := true
deriving DecidableEq, Repr

/-- Python slice `lst[-n:]`.  For `n = 0` Python evaluates `lst[-0:]`,
which is `lst[0:]`, i.e. the whole list; for `n > 0` it is the suffix of
the last `n` elements (the whole list when `n` exceeds the length). -/
def pySliceLastN {α : Type} (n : Nat) (l : List α) : List α :=
  if n = 0 then l else l.drop (l.length - n)

/-- Room history from `cmd_chat/server/models.py` (`RoomHistory`).
`last_updated` is a wall-clock instant, modelled as a `Nat` supplied by the
caller of `add_message`. -/
structure RoomHistory where
  room_id : String
  messages : List Message := []
  last_updated : Nat := 0
  message_count : Nat := 0
  max_messages : Nat := 10000
deriving DecidableEq, Repr

/-- Embedding of `RoomHistory.add_message`: append the message, bump the
count, refresh `last_updated`, and if the list now exceeds `max_messages`
keep only `messages[-max_messages:]`. -/
def RoomHistory.add_message (h : RoomHistory) (m : Message) (now : Nat) : RoomHistory :=
  { h with
    messages :=
      if (h.messages ++ [m]).length > h.max_messages
      then pySliceLastN h.max_messages (h.messages ++ [m])
      else h.messages ++ [m],
    message_count := h.message_count + 1,
    last_updated := now }

/-- Embedding of `RoomHistory.get_recent_messages`: a "most recent N" query
clamped to the available length; `N ≤ 0` (here `N = 0` in `Nat`) returns the
full retained sequence, matching `self.messages[-limit:] if limit > 0 else
self.messages`. -/
def RoomHistory.get_recent_messages (h : RoomHistory) (limit : Nat) : List Message :=
  if limit > 0 then pySliceLastN limit h.messages else h.messages

/-- Fresh history for a room, as built by `RoomHistory(room_id=rid)` with an
optional explicit cap. -/
def mkHistory (rid : String) (cap : Nat := 10000) : RoomHistory :=
  { room_id := rid, max_messages := cap }

/-- Folding a sequence of `add_message` calls over a history. -/
def RoomHistory.addAll (h : RoomHistory) (ms : List Message) (now : Nat) : RoomHistory :=
  ms.foldl (fun acc m => acc.add_message m now) h

/-- The suffix of the last `n` elements of a list (no Python `-0` quirk);
used to state what the truncation does for a positive cap. -/
def lastN {α : Type} (n : Nat) (l : List α) : List α :=
  l.drop (l.length - n)

/-- Concrete messages used to instantiate the RoomHistory claims. -/
def msgW1 : Message := { id := "m1", room_id := "r", user_id := "u1", username := "alice", content := "one" }

def msgW2 : Message := { id := "m2", room_id := "r", user_id := "u2", username := "bob", content := "two" }

def msgW3 : Message := { id := "m3", room_id := "r", user_id := "u1", username := "alice", content := "three" }

/-- Embedding of `_check_rate_limit` from `server.py`.  Timestamps are
`Int` seconds.  The function drops timestamps `ts` with `now - ts ≥ window`,
stores the pruned list back, rejects without recording when the pruned
count reaches `limit`, and otherwise records `now` and accepts.  It returns
the decision together with the updated per-user timestamp store. -/
def checkRateLimit (limits : List (String × List Int)) (uid : String) (now : Int)
    (limit window : Nat) : Bool × List (String × List Int) :=
  let ts := (alLookup uid limits).getD []
  let kept := ts.filter (fun t => now - t < (window : Int))
  if kept.length ≥ limit then (false, alInsert uid kept limits)
  else (true, alInsert uid (kept ++ [now]) limits)

/-- Repeated rate-limit checks for one user at the given instants, with the
default limit 10 and window 60, starting from an empty store; returns the
list of accept/reject decisions. -/
def rateScenario (times : List Int) : List Bool :=
  (times.foldl
    (fun acc t =>
      let r := checkRateLimit acc.2 "u" t 10 60
      (acc.1 ++ [r.1], r.2))
    (([] : List Bool), ([] : List (String × List Int)))).1

/-- Embedding of the client's `_connect_ws` retry loop (`client.py`).
`succeed i` tells whether the `i`-th (0-based) connection attempt succeeds;
the transport errors themselves are irrelevant to the control flow.  The
structural `fuel` argument counts the attempts still allowed, so `fuel = 0`
after a failure means the loop is at its last attempt and does not sleep.
Returns the successful attempt index (`none` when the final
`ConnectionError` is raised), the number of attempts made, and the list of
backoff sleeps in order. -/
def connectWsAux (succeed : Nat → Bool) (backoff : ℚ) : Nat → Nat → Option Nat × Nat × List ℚ
  | _, 0 => (none, 0, [])
  | i, fuel + 1 =>
    if succeed i then (some i, 1, [])
    else
      let r := connectWsAux succeed backoff (i + 1) fuel
      (r.1, r.2.1 + 1, (if fuel = 0 then [] else [backoff * 2 ^ i]) ++ r.2.2)

/-- The retry loop of `_connect_ws` with its configured attempt maximum
(`retries`, default 5) and base delay (`backoff`, default 1.0). -/
def connectWs (succeed : Nat → Bool) (retries : Nat) (backoff : ℚ) : Option Nat × Nat × List ℚ :=
  connectWsAux succeed backoff 0 retries

/-- Python `a or b` on optional strings, where `None` and `""` are falsy:
the left value wins when it is a non-empty string, otherwise the right
operand is returned as is. -/
def pyOrS (a b : Option String) : Option String :=
  match a with
  | none => b
  | some s => if s = "" then b else some s

/-- Python `a or d` collapsing a falsy optional string to the default `d`. -/
def pyOrStr (a : Option String) (d : String) : String :=
  match a with
  | none => d
  | some s => if s = "" then d else s

/-- Keep an optional string only when it is truthy (non-empty); models the
`if raw:` guards around the extraction stages. -/
def nonEmptyOpt (o : Option String) : Option String :=
  match o with
  | none => none
  | some s => if s = "" then none else some s

/-- Incoming Sanic request, restricted to the parts the handlers read:
source address, query args, form fields, optional JSON body (an object,
`none` when absent or unparsable), and uploaded files (name to list of file
bodies). -/
structure Request where
  ip : String
  args : List (String × String)
  form : List (String × String)
  json : Option (List (String × String))
  files : List (String × List String)

/-- Python truthiness of `request.json`: an absent body and an empty object
are falsy. -/
def Request.jsonTruthy (req : Request) : Bool :=
  match req.json with
  | none => false
  | some l => !l.isEmpty

/-- The value of `request.json.get(name)` (`none` when the body is absent
or lacks the key). -/
def Request.jsonGet (req : Request) (name : String) : Option String :=
  match req.json with
  | none => none
  | some l => alLookup name l

/-- Embedding of the password extraction inside `_check_password`.  Because
of Python conditional-expression precedence, the expression
`a or b or c if cond else None` parses as `(a or b or c) if cond else
None`: the whole `args or form or json` chain is consulted only when the
JSON body is truthy and has a `"password"` key, and otherwise the extracted
password is `None` regardless of the query and form values. -/
def passwordExtract (req : Request) : Option String :=
  if req.jsonTruthy && (req.jsonGet "password").isSome then
    pyOrS (alLookup "password" req.args)
      (pyOrS (alLookup "password" req.form) (req.jsonGet "password"))
  else none

/-- Embedding of `_check_password`: with no configured password (Python
`None` or `""`, both falsy) the check always passes; otherwise the
extracted password must equal the expected one (`None == expected` is
false). -/
def checkPassword (req : Request) (expected : Option String) : Bool :=
  match expected with
  | none => true
  | some e => if e = "" then true else passwordExtract req == some e

/-- Embedding of `_get_str_arg`: form field first, then query parameter,
then JSON body (the body only when it is truthy and has the key), the first
truthy value winning and the last stage returned as is. -/
def getStrArg (req : Request) (name : String) : Option String :=
  pyOrS (alLookup name req.form)
    (pyOrS (alLookup name req.args)
      (if req.jsonTruthy && (req.jsonGet name).isSome then req.jsonGet name else none))

/-- The file-upload stage of the public-key extraction in `get_key_view`:
`request.files.get("pubkey")` returns the first uploaded file (a truthy
object) when one exists, and its body is taken as is. -/
def pubkeyFromFiles (req : Request) : Option String :=
  match alLookup "pubkey" req.files with
  | none => none
  | some fs => fs.head?

/-- Embedding of the public-key extraction in `get_key_view`: the stages
chain on `pubkey_bytes is None`, so a present file body wins even when
empty, then the form field, the query parameter, and the JSON body follow,
each only when truthy. -/
def pubkeyExtract (req : Request) : Option String :=
  (pubkeyFromFiles req).or
    ((nonEmptyOpt (alLookup "pubkey" req.form)).or
      ((nonEmptyOpt (alLookup "pubkey" req.args)).or
        (if req.jsonTruthy then nonEmptyOpt (req.jsonGet "pubkey") else none)))

/-- User record from `models.py` (`User`), restricted to the fields the
handlers use; the pydantic username validator is irrelevant to the claims
settled here. -/
structure User where
  id : String
  username : String
  ip_address : Option String := none
deriving DecidableEq, Repr

/-- Room type enum from `models.py` (`RoomType`). -/
inductive RoomType where
  | public
  | priv
  | direct
deriving DecidableEq, Repr

/-- Room record from `models.py` (`Room`); `id` is generated by
`str(uuid.uuid4())` and is supplied explicitly by callers of the embedded
constructors.  The pydantic field `type` is named `rtype` here (`type` is a
Lean keyword). -/
structure Room where
  id : String
  name : String
  rtype : RoomType := .public
  created_by : String
  description : String := ""
  is_active : Bool := true
  member_count : Nat := 0
  max_members : Nat := 50
deriving DecidableEq, Repr

/-- Connection record from `models.py` (`ConnectionInfo`); times are `Nat`
instants. -/
structure ConnectionInfo where
  user_id : String
  room_id : String
  connected_at : Nat := 0
  last_ping : Nat := 0
  is_active : Bool := true
deriving DecidableEq, Repr

/-- The `ServerState` registry from `server.py`: every dict becomes an
association list, the websocket sets become lists of opaque socket ids
(`Nat`), and the process-wide Fernet key becomes an opaque byte list. -/
structure ServerState where
  messages : List (String × List Message) := []
  users : List (String × User) := []
  rooms : List (String × Room) := []
  connections : List (String × ConnectionInfo) := []
  room_histories : List (String × RoomHistory) := []
  active_connections : List (String × List Nat) := []
  user_websockets : List (String × Nat) := []
  symmetric_key : List Nat := []
  message_rate_limits : List (String × List Int) := []
deriving DecidableEq, Repr

/-- A server state with every store empty (before default-room creation). -/
def emptyState : ServerState := {}

/-- Embedding of the message-storage block inside the `talk_ws_view`
receive loop (the spec's `appendMessage`): ensure a live message list
exists for the room id (creating an empty one when absent), append the
message to it, and append to the room history only when a history entry for
the room id already exists. -/
def appendMessage (st : ServerState) (rid : String) (m : Message) (now : Nat) : ServerState :=
  let st1 := { st with
    messages := alInsert rid (((alLookup rid st.messages).getD []) ++ [m]) st.messages }
  match alLookup rid st.room_histories with
  | none => st1
  | some h => { st1 with room_histories := alInsert rid (h.add_message m now) st.room_histories }

/-- Python runtime errors the cleanup blocks can raise. -/
inductive PyError where
  | unboundLocal
  | keyError
deriving DecidableEq, Repr

/-- Embedding of the `finally` cleanup block of `talk_ws_view`.  The local
variables `user_id` and `room_id` are `none` when the handler exited before
assigning them (e.g. the password check failed and the handler returned);
evaluating an unbound local raises `UnboundLocalError`.  All three map
updates are guarded by containment checks, and `set.discard` is modelled by
`List.filter`. -/
def talkCleanupStage1 (st : ServerState) (uid : String) : ServerState :=
  if (alLookup uid st.user_websockets).isSome
  then { st with user_websockets := alErase uid st.user_websockets }
  else st

def talkCleanupStage2 (st : ServerState) (uid : String) : ServerState :=
  if (alLookup uid st.connections).isSome
  then { st with connections := alErase uid st.connections }
  else st

/-- The guarded `set.discard` on a room's connection set:
`if room_id in active_connections: active_connections[room_id].discard(ws)`. -/
def discardWs (st : ServerState) (rid : String) (ws : Nat) : ServerState :=
  match alLookup rid st.active_connections with
  | none => st
  | some conns =>
    { st with active_connections :=
        alInsert rid (conns.filter (fun w => w ≠ ws)) st.active_connections }

def talkCleanup (st : ServerState) (user_id room_id : Option String) (ws : Nat) :
    ServerState × Option PyError :=
  match user_id with
  | none => (st, some .unboundLocal)
  | some uid =>
    match room_id with
    | none => (talkCleanupStage2 (talkCleanupStage1 st uid) uid, some .unboundLocal)
    | some rid =>
      (discardWs (talkCleanupStage2 (talkCleanupStage1 st uid) uid) rid ws, none)

/-- Embedding of the `finally` cleanup block of `update_ws_view`: it
indexes `active_connections[room_id]` directly (a `KeyError` when the key
is absent) and raises `UnboundLocalError` when `room_id` was never
assigned. -/
def updateCleanup (st : ServerState) (room_id : Option String) (ws : Nat) :
    ServerState × Option PyError :=
  match room_id with
  | none => (st, some .unboundLocal)
  | some rid =>
    match alLookup rid st.active_connections with
    | none => (st, some .keyError)
    | some conns =>
      ({ st with active_connections :=
          alInsert rid (conns.filter (fun w => w ≠ ws)) st.active_connections }, none)

/-- State updates shared by `_create_default_rooms` and the create-room
endpoint: the room record, live message list, history, and connection set
are all inserted under the room's generated id. -/
def addRoomToState (r : Room) (st : ServerState) : ServerState :=
  { st with
    rooms := alInsert r.id r st.rooms,
    messages := alInsert r.id [] st.messages,
    room_histories := alInsert r.id (mkHistory r.id) st.room_histories,
    active_connections := alInsert r.id [] st.active_connections }

/-- The three default rooms created by `_create_default_rooms` at server
start (name, description). -/
def defaultRoomSpecs : List (String × String) :=
  [("general", "General chat room"), ("random", "Random discussions"),
   ("tech", "Technology discussions")]

/-- Embedding of `_create_default_rooms`: each default room is built with a
freshly generated uuid id (supplied in `ids`, one per room) and registered
under that id. -/
def createDefaultRooms (ids : List String) (st : ServerState) : ServerState :=
  ((defaultRoomSpecs.zip ids).map
    (fun p => { id := p.2, name := p.1.1, created_by := "system",
                description := p.1.2 : Room })).foldl
    (fun s r => addRoomToState r s) st

/-- Embedding of the POST /rooms endpoint body after a successful password
check: strip the name, reject an empty name (400), reject a name the
pydantic validator refuses (over 30 characters, surfaced as a 500), and
otherwise register the room with the freshly generated uuid `rid` under
that id. -/
def createRoomOp (st : ServerState) (rid name created_by description : String) :
    Option (Room × ServerState) :=
  let n := name.trim
  if n = "" then none
  else if n.length > 30 then none
  else
    let room : Room := { id := rid, name := n, created_by := created_by,
                         description := description }
    some (room, addRoomToState room st)

/-- Outcome of the /get_key endpoint. -/
inductive KeyResponse where
  | unauthorized
  | missingKey
  | invalidKey
  | rawKey (body : List Nat)
deriving DecidableEq, Repr

/-- Embedding of `get_key_view`: check the password, extract the public
key, parse it (`loadKey` stands for `load_pem_public_key`, `none` meaning a
parse failure and a 400 response), encrypt the process-wide symmetric key
(`encryptKey` stands for the library RSA-OAEP encryption), store a user
record for a new source-address/username pair (with uuid `newUserId`), and
return the raw encrypted bytes. -/
def getKeyView (st : ServerState) (req : Request) (adminPw : Option String)
    (loadKey : String → Option Nat) (encryptKey : Nat → List Nat → List Nat)
    (newUserId : String) : KeyResponse × ServerState :=
  if !(checkPassword req adminPw) then (.unauthorized, st)
  else
    match pubkeyExtract req with
    | none => (.missingKey, st)
    | some pb =>
      if pb = "" then (.missingKey, st)
      else
        match loadKey pb with
        | none => (.invalidKey, st)
        | some pk =>
          let enc := encryptKey pk st.symmetric_key
          let username := pyOrStr (getStrArg req "username") "unknown"
          let uid := req.ip ++ ", " ++ username
          let newUser : User :=
            { id := newUserId, username := username, ip_address := some req.ip }
          let st2 :=
            if (alLookup uid st.users).isSome then st
            else { st with users := alInsert uid newUser st.users }
          (.rawKey enc, st2)

/-- Client-side crypto state from `CryptoServiceExtended`: the RSA keypair
handles, the decrypted symmetric key, and the Fernet context built from it;
`none` models Python `None`, and the key handles are opaque. -/
structure ClientCrypto where
  public_key : Option Nat := none
  private_key : Option Nat := none
  symmetric_key : Option (List Nat) := none
  fernet : Option (List Nat) := none
deriving DecidableEq, Repr

/-- Embedding of `_remove_keys`: clears all four references, including the
symmetric key and the Fernet context. -/
def removeKeys (_c : ClientCrypto) : ClientCrypto :=
  { public_key := none, private_key := none, symmetric_key := none, fernet := none }

/-- Embedding of a successful `_request_key`: the decrypted symmetric key
is stored on the client and the Fernet context is constructed from it. -/
def requestKeySuccess (c : ClientCrypto) (k : List Nat) : ClientCrypto :=
  { c with symmetric_key := some k, fernet := some k }

/-- Embedding of `_validate_keys` from `client.py`: perform the key
exchange, then immediately call `_remove_keys`. -/
def validateKeys (c : ClientCrypto) (k : List Nat) : ClientCrypto :=
  removeKeys (requestKeySuccess c k)

/-- Embedding of `_encrypt`: `self.fernet.encrypt(...)` raises when
`self.fernet` is `None`, and `_encrypt` converts any exception to
`ValueError("Encryption failed: ...")`; `fernetEncrypt` stands for the
Fernet encryption itself. -/
def clientEncrypt (c : ClientCrypto) (fernetEncrypt : List Nat → String → String)
    (msg : String) : Except String String :=
  match c.fernet with
  | none => .error "Encryption failed"
  | some key => .ok (fernetEncrypt key msg)

/-- Concrete request for the C2 counterexample: the username is supplied
both as a form field and in the JSON body. -/
def reqC2 : Request :=
  { ip := "1.1.1.1", args := [], form := [("username", "alice")],
    json := some [("username", "bob")], files := [] }

/-- Concrete request for the C9 witness: a wrong password in the query
string, no other sources. -/
def reqC9 : Request :=
  { ip := "2.2.2.2", args := [("password", "wrong")], form := [],
    json := none, files := [] }

/-- Concrete message for the C3 counterexample and witness. -/
def msgC3 : Message :=
  { id := "m9", room_id := "nowhere", user_id := "u9", username := "carol", content := "lost" }

/-- Every key of an association list has the length of a `str(uuid.uuid4())`
string (36 characters: 32 hex digits and 4 hyphens). -/
def keysUuidLen {α : Type} (l : List (String × α)) : Prop :=
  ∀ p ∈ l, p.1.length = 36

/-- All four room-keyed registry maps have uuid-length keys only. -/
def stateKeysUuidLen (st : ServerState) : Prop :=
  keysUuidLen st.rooms ∧ keysUuidLen st.messages ∧
    keysUuidLen st.room_histories ∧ keysUuidLen st.active_connections

/-- The registry after server start (default rooms created with the fresh
uuids `ids`) followed by any sequence of room creations `rs` (each room
carrying its own fresh uuid id). -/
def registryAfterCreates (ids : List String) (rs : List Room) : ServerState :=
  rs.foldl (fun s r => addRoomToState r s) (createDefaultRooms ids emptyState)

/-- Big-endian byte-string-to-integer conversion (PKCS#1 OS2IP). -/
def osToInt (bs : List Nat) : Nat :=
  bs.foldl (fun a b => a * 256 + b) 0

/-- Integer-to-byte-string conversion at a fixed length (PKCS#1 I2OSP). -/
def intToOs : Nat → Nat → List Nat
  | 0, _ => []
  | kk + 1, n => intToOs kk (n / 256) ++ [n % 256]

/-- Bytewise xor of two byte strings (the OAEP masking operation). -/
def xorBytes (a b : List Nat) : List Nat :=
  List.zipWith Nat.xor a b

/-- Every entry of the list is a byte. -/
def isBytes (l : List Nat) : Prop :=
  ∀ b ∈ l, b < 256

/-- A hash function of output length `hLen` whose outputs are bytes; stands
for SHA-256 (`hLen = 32`), which both sides of the key exchange fix for the
OAEP hash and its MGF1. -/
def hashOk (hash : List Nat → List Nat) (hLen : Nat) : Prop :=
  ∀ bs, (hash bs).length = hLen ∧ isBytes (hash bs)

/-- Concatenation of `count` MGF1 hash blocks `hash(seed ++ C(i))`, the
counters `C(i)` encoded as 4 big-endian bytes, starting at counter `i`. -/
def mgf1Blocks (hash : List Nat → List Nat) (seed : List Nat) : Nat → Nat → List Nat
  | 0, _ => []
  | count + 1, i => hash (seed ++ intToOs 4 i) ++ mgf1Blocks hash seed count (i + 1)

/-- MGF1 mask generation (RFC 8017 B.2.1): enough hash blocks to cover
`maskLen` bytes, truncated to `maskLen`. -/
def mgf1 (hash : List Nat → List Nat) (hLen : Nat) (seed : List Nat) (maskLen : Nat) :
    List Nat :=
  (mgf1Blocks hash seed ((maskLen + hLen - 1) / hLen) 0).take maskLen

/-- EME-OAEP encoding (RFC 8017 7.1.1): build
`DB = lHash ‖ PS ‖ 01 ‖ M`, mask `DB` with `MGF1(seed)`, mask the seed with
`MGF1(maskedDB)`, and prepend the zero byte. -/
def oaepPad (hash : List Nat → List Nat) (hLen k : Nat) (label msg seed : List Nat) :
    List Nat :=
  let lHash := hash label
  let ps : List Nat := List.replicate (k - msg.length - 2 * hLen - 2) 0
  let db := lHash ++ (ps ++ (1 :: msg))
  let dbMask := mgf1 hash hLen seed (k - hLen - 1)
  let maskedDB := xorBytes db dbMask
  let seedMask := mgf1 hash hLen maskedDB hLen
  let maskedSeed := xorBytes seed seedMask
  0 :: (maskedSeed ++ maskedDB)

/-- EME-OAEP decoding (RFC 8017 7.1.2): split off the leading byte, unmask
the seed and then `DB`, check the leading byte, the label hash, and the
`PS ‖ 01` separator, and return the message; any inconsistency yields
`none` (a decryption error). -/
def oaepUnpad (hash : List Nat → List Nat) (hLen k : Nat) (label em : List Nat) :
    Option (List Nat) :=
  match em with
  | [] => none
  | y :: rest =>
    let maskedSeed := rest.take hLen
    let maskedDB := rest.drop hLen
    let seedMask := mgf1 hash hLen maskedDB hLen
    let seed := xorBytes maskedSeed seedMask
    let dbMask := mgf1 hash hLen seed (k - hLen - 1)
    let db := xorBytes maskedDB dbMask
    if em.length = k ∧ y = 0 ∧ db.take hLen = hash label then
      match (db.drop hLen).dropWhile (fun b => b == 0) with
      | 1 :: m => some m
      | _ => none
    else none

/-- Square-and-multiply modular exponentiation with an explicit fuel bound
(`fuel ≥ e` suffices); this is the modular exponentiation the RSA
implementation performs. -/
def powModFuel (n x : Nat) : Nat → Nat → Nat
  | 0, _ => 1 % n
  | _, 0 => 1 % n
  | fuel + 1, e =>
    let h := powModFuel n x fuel (e / 2)
    if e % 2 = 0 then h * h % n else h * h % n * x % n

/-- `x ^ e mod n` by square-and-multiply. -/
def powMod (n x e : Nat) : Nat :=
  powModFuel n x e e

/-- RSA-OAEP encryption of `msg` under the public key `(n, e)` with modulus
length `k` bytes and encoding seed `seed`, as performed by `get_key_view`
(`public_key.encrypt(symmetric_key, OAEP(mgf=MGF1(SHA256), algorithm=SHA256,
label=None))`). -/
def rsaEncryptOAEP (hash : List Nat → List Nat) (hLen n e k : Nat)
    (msg seed : List Nat) : List Nat :=
  intToOs k (powMod n (osToInt (oaepPad hash hLen k [] msg seed)) e)

/-- RSA-OAEP decryption under the private key `(n, d)`, as performed by the
client's `_decrypt_with_private_key` with the same OAEP parameters. -/
def rsaDecryptOAEP (hash : List Nat → List Nat) (hLen n d k : Nat)
    (ct : List Nat) : Option (List Nat) :=
  oaepUnpad hash hLen k [] (intToOs k (powMod n (osToInt ct) d))

/-- Toy instantiation of the OAEP hash for the witness: a single-byte
checksum. -/
def hashW : List Nat → List Nat :=
  fun bs => [(bs.foldl (fun a b => a + b) 0) % 256]

end CmdChat

namespace CmdChat

theorem lastN_nil {α : Type} (n : Nat) : lastN n ([] : List α) = [] := by
  simp [lastN]

theorem lastN_of_le {α : Type} (n : Nat) (l : List α) (h : l.length ≤ n) : lastN n l = l := by
  unfold lastN
  rw [Nat.sub_eq_zero_of_le h, List.drop_zero]

/-- Re-truncating after appending one element to an already truncated list
gives the same suffix as truncating the full appended list. -/
theorem lastN_append_lastN {α : Type} (cap : Nat) (s : List α) (m : α) :
    lastN cap (lastN cap s ++ [m]) = lastN cap (s ++ [m]) := by
  unfold lastN
  have h1 : s.drop (s.length - cap) ++ [m] = (s ++ [m]).drop (s.length - cap) :=
    (List.drop_append_of_le_length (Nat.sub_le _ _)).symm
  rw [h1, List.drop_drop]
  congr 1
  rw [List.length_drop]
  simp only [List.length_append, List.length_singleton]
  omega

/-- One step of the `add_message` truncation, for a positive cap, in terms
of `lastN`. -/
theorem truncStep {α : Type} (cap : Nat) (hcap : 1 ≤ cap) (s : List α) (m : α) :
    (if (lastN cap s ++ [m]).length > cap then pySliceLastN cap (lastN cap s ++ [m])
     else lastN cap s ++ [m]) = lastN cap (s ++ [m]) := by
  have hkey := lastN_append_lastN cap s m
  by_cases hlen : (lastN cap s ++ [m]).length > cap
  · rw [if_pos hlen]
    unfold pySliceLastN
    rw [if_neg (by omega)]
    exact hkey
  · rw [if_neg hlen]
    have hle : (lastN cap s ++ [m]).length ≤ cap := by omega
    have hid : lastN cap (lastN cap s ++ [m]) = lastN cap s ++ [m] :=
      lastN_of_le cap _ hle
    exact hid.symm.trans hkey

theorem add_message_messages_pos (h : RoomHistory) (m : Message) (now : Nat) (s : List Message)
    (hcap : 1 ≤ h.max_messages) (hmsg : h.messages = lastN h.max_messages s) :
    (h.add_message m now).messages = lastN h.max_messages (s ++ [m]) := by
  have hstep := truncStep h.max_messages hcap s m
  simp only [RoomHistory.add_message, hmsg]
  exact hstep

theorem addAll_messages_pos (cap : Nat) (hcap : 1 ≤ cap) (now : Nat) :
    ∀ (ms : List Message) (h : RoomHistory), h.max_messages = cap →
      ∀ s : List Message, h.messages = lastN cap s →
      (h.addAll ms now).messages = lastN cap (s ++ ms) ∧
        (h.addAll ms now).max_messages = cap := by
  intro ms
  induction ms with
  | nil =>
    intro h hmax s hmsg
    simp [RoomHistory.addAll, hmsg, hmax]
  | cons m rest ih =>
    intro h hmax s hmsg
    have hmax' : (h.add_message m now).max_messages = cap := by
      simp [RoomHistory.add_message, hmax]
    have hstep : (h.add_message m now).messages = lastN cap (s ++ [m]) := by
      have := add_message_messages_pos h m now s (hmax ▸ hcap) (hmax ▸ hmsg)
      rwa [hmax] at this
    have hrest := ih (h.add_message m now) hmax' (s ++ [m]) hstep
    constructor
    · have : (h.addAll (m :: rest) now) = ((h.add_message m now).addAll rest now) := by
        simp [RoomHistory.addAll]
      rw [this, hrest.1, List.append_assoc]
      rfl
    · have : (h.addAll (m :: rest) now) = ((h.add_message m now).addAll rest now) := by
        simp [RoomHistory.addAll]
      rw [this]
      exact hrest.2

/-- C5 (amended): for a positive cap, appending `cap + k` messages to a
fresh `RoomHistory` retains exactly the newest `cap` messages in their
original relative order, and after every prefix of the appends the retained
count never exceeds the cap. -/
theorem claim_C5_history_cap (cap k : Nat) (rid : String) (ms : List Message) (now : Nat)
    (hcap : 1 ≤ cap) (hlen : ms.length = cap + k) :
    ((mkHistory rid cap).addAll ms now).messages = ms.drop k ∧
      ((mkHistory rid cap).addAll ms now).messages.length = cap ∧
      ∀ pre suf : List Message, ms = pre ++ suf →
        ((mkHistory rid cap).addAll pre now).messages.length ≤ cap := by
  have hbase : (mkHistory rid cap).messages = lastN cap ([] : List Message) := by
    simp [mkHistory, lastN_nil]
  have hmaxb : (mkHistory rid cap).max_messages = cap := rfl
  have hmain := addAll_messages_pos cap hcap now ms (mkHistory rid cap) hmaxb [] hbase
  have hfin : ((mkHistory rid cap).addAll ms now).messages = ms.drop k := by
    rw [hmain.1]
    unfold lastN
    simp only [List.nil_append]
    congr 1
    omega
  refine ⟨hfin, ?_, ?_⟩
  · rw [hfin, List.length_drop]
    omega
  · intro pre suf hsplit
    have hpre := addAll_messages_pos cap hcap now pre (mkHistory rid cap) hmaxb [] hbase
    rw [hpre.1]
    unfold lastN
    simp only [List.nil_append, List.length_drop]
    omega

/-- Witness instantiating `claim_C5_history_cap` with cap 2 and three
appended messages. -/
theorem claim_C5_history_cap_witness :
    (1 ≤ 2 ∧ ([msgW1, msgW2, msgW3] : List Message).length = 2 + 1) ∧
      ((mkHistory "r" 2).addAll [msgW1, msgW2, msgW3] 5).messages = [msgW2, msgW3] := by
  refine ⟨⟨by decide, by decide⟩, ?_⟩
  have h := claim_C5_history_cap 2 1 "r" [msgW1, msgW2, msgW3] 5 (by decide) (by decide)
  simpa using h.1

/-- Counterexample to C5 as stated: for cap `max_messages = 0` the Python
slice `messages[-0:]` is `messages[0:]`, the whole list, so after `0 + 1`
appends one message is retained where the claim demands zero. -/
theorem claim_C5_counterexample :
    ((mkHistory "r" 0).add_message msgW1 0).messages = [msgW1] := by
  rfl

/-- C6: each check prunes exactly the timestamps older than the window,
rejects without recording when the pruned count is at least the limit, and
otherwise records the new timestamp and accepts; with limit 10 and window
60 s, ten accepted calls inside one window are followed by a rejected
eleventh, and a later call outside the window is accepted again. -/
theorem claim_C6_rate_limiter (limits : List (String × List Int)) (uid : String) (now : Int)
    (limit window : Nat) :
    (∀ t : Int,
        t ∈ ((alLookup uid limits).getD []).filter (fun t => now - t < (window : Int)) ↔
          t ∈ (alLookup uid limits).getD [] ∧ now - t < (window : Int)) ∧
    ((((alLookup uid limits).getD []).filter (fun t => now - t < (window : Int))).length ≥ limit →
        checkRateLimit limits uid now limit window =
          (false, alInsert uid (((alLookup uid limits).getD []).filter
            (fun t => now - t < (window : Int))) limits)) ∧
    ((((alLookup uid limits).getD []).filter (fun t => now - t < (window : Int))).length < limit →
        checkRateLimit limits uid now limit window =
          (true, alInsert uid ((((alLookup uid limits).getD []).filter
            (fun t => now - t < (window : Int))) ++ [now]) limits)) ∧
    rateScenario [0, 6, 12, 18, 24, 30, 36, 42, 48, 54, 59, 119] =
      [true, true, true, true, true, true, true, true, true, true, false, true] := by
  refine ⟨?_, ?_, ?_, ?_⟩
  · intro t
    simp [List.mem_filter]
  · intro hge
    simp only [checkRateLimit]
    rw [if_pos hge]
  · intro hlt
    simp only [checkRateLimit]
    rw [if_neg (by omega)]
  · decide

/-- Witness instantiating `claim_C6_rate_limiter`: with one live timestamp
already recorded and limit 1, a call inside the window is rejected and the
new timestamp is not recorded. -/
theorem claim_C6_rate_limiter_witness :
    (((alLookup "u" [(("u" : String), [(0 : Int), 100])]).getD []).filter
        (fun t => (100 : Int) - t < ((60 : Nat) : Int))).length ≥ 1 ∧
      checkRateLimit [("u", [0, 100])] "u" 100 1 60 =
        (false, alInsert "u" [(100 : Int)] [("u", [0, 100])]) := by
  refine ⟨by decide, ?_⟩
  have h := (claim_C6_rate_limiter [("u", [0, 100])] "u" 100 1 60).2.1 (by decide)
  simpa using h

theorem connectWsAux_attempts_le (succeed : Nat → Bool) (backoff : ℚ) :
    ∀ (fuel i : Nat), (connectWsAux succeed backoff i fuel).2.1 ≤ fuel := by
  intro fuel
  induction fuel with
  | zero => intro i; simp [connectWsAux]
  | succ n ih =>
    intro i
    simp only [connectWsAux]
    by_cases h : succeed i
    · simp [h]
    · simp only [h, Bool.false_eq_true, if_false]
      have := ih (i + 1)
      simpa using Nat.add_le_add_right this 1

/-- C8: the retry loop makes at most `retries` connection attempts; with the
default of 5 attempts all failing, it makes exactly 5 attempts, sleeps
`backoff * 2 ^ attempt` after each failed attempt except the last, and ends
with `none` (the terminal `ConnectionError` raised to the caller). -/
theorem claim_C8_connect_retry (succeed : Nat → Bool) (retries : Nat) (b : ℚ) :
    (connectWs succeed retries b).2.1 ≤ retries ∧
      ((∀ i, i < 5 → succeed i = false) →
        connectWs succeed 5 b =
          (none, 5, [b * 2 ^ 0, b * 2 ^ 1, b * 2 ^ 2, b * 2 ^ 3])) := by
  constructor
  · exact connectWsAux_attempts_le succeed b retries 0
  · intro h
    have h0 := h 0 (by omega)
    have h1 := h 1 (by omega)
    have h2 := h 2 (by omega)
    have h3 := h 3 (by omega)
    have h4 := h 4 (by omega)
    simp [connectWs, connectWsAux, h0, h1, h2, h3, h4]

/-- Witness instantiating `claim_C8_connect_retry` with every attempt
failing and base delay 1. -/
theorem claim_C8_connect_retry_witness :
    (∀ i : Nat, i < 5 → (fun _ : Nat => false) i = false) ∧
      connectWs (fun _ : Nat => false) 5 1 = (none, 5, [1, 2, 4, 8]) := by
  refine ⟨fun i _ => rfl, ?_⟩
  have h := (claim_C8_connect_retry (fun _ : Nat => false) 5 1).2 (fun i _ => rfl)
  rw [h]
  norm_num

theorem alLookup_alInsert_self {α : Type} (k : String) (v : α) (l : List (String × α)) :
    alLookup k (alInsert k v l) = some v := by
  induction l with
  | nil => simp [alInsert, alLookup]
  | cons p t ih =>
    obtain ⟨k', v'⟩ := p
    by_cases h : k' = k
    · simp [alInsert, alLookup, h]
    · simp [alInsert, alLookup, h, ih]

theorem alInsert_of_alLookup_none {α : Type} (k : String) (v : α) (l : List (String × α))
    (h : alLookup k l = none) : alInsert k v l = l ++ [(k, v)] := by
  induction l with
  | nil => simp [alInsert]
  | cons p t ih =>
    obtain ⟨k', v'⟩ := p
    by_cases hk : k' = k
    · simp [alLookup, hk] at h
    · simp only [alLookup, hk, if_false] at h
      simp [alInsert, hk, ih h]

theorem alLookup_alErase_self {α : Type} (k : String) (l : List (String × α)) :
    alLookup k (alErase k l) = none := by
  induction l with
  | nil => simp [alErase, alLookup]
  | cons p t ih =>
    obtain ⟨k', v'⟩ := p
    by_cases hk : k' = k
    · simpa [alErase, List.filter_cons, hk] using ih
    · simpa [alErase, List.filter_cons, hk, alLookup] using ih

theorem alInsert_alInsert_self {α : Type} (k : String) (v v' : α) (l : List (String × α)) :
    alInsert k v' (alInsert k v l) = alInsert k v' l := by
  induction l with
  | nil => simp [alInsert]
  | cons p t ih =>
    obtain ⟨k1, v1⟩ := p
    by_cases hk : k1 = k
    · simp [alInsert, hk]
    · simp [alInsert, hk, ih]

theorem filterIdem {α : Type} (p : α → Bool) (l : List α) :
    (l.filter p).filter p = l.filter p := by
  induction l with
  | nil => rfl
  | cons a t ih =>
    by_cases h : p a
    · simp [List.filter_cons, h, ih]
    · simp [List.filter_cons, h, ih]

/-- C1 (code bug): a successful `_request_key` does retain the symmetric
key and the Fernet context, but `_validate_keys` immediately calls
`_remove_keys`, so after the handshake completes both are cleared and every
subsequent `_encrypt` fails instead of succeeding. -/
theorem claim_C1_key_retention (c : ClientCrypto) (k : List Nat)
    (fe : List Nat → String → String) (msg : String) :
    (requestKeySuccess c k).symmetric_key = some k ∧
      (requestKeySuccess c k).fernet = some k ∧
      clientEncrypt (requestKeySuccess c k) fe msg = .ok (fe k msg) ∧
      (validateKeys c k).symmetric_key = none ∧
      (validateKeys c k).fernet = none ∧
      clientEncrypt (validateKeys c k) fe msg = .error "Encryption failed" :=
  ⟨rfl, rfl, rfl, rfl, rfl, rfl⟩

/-- Counterexample to C3 as stated: a message appended under a room id
absent from the registry is not a no-op — a live message list entry is
created for the unknown id and the message is stored in it. -/
theorem claim_C3_counterexample :
    appendMessage emptyState "ghost" msgC3 0 ≠ emptyState ∧
      alLookup "ghost" (appendMessage emptyState "ghost" msgC3 0).messages = some [msgC3] := by
  refine ⟨?_, rfl⟩
  intro h
  have := congrArg ServerState.messages h
  simp [appendMessage, emptyState, alInsert, alLookup] at this

/-- C3 (amended): for a room id absent from the registry, the talk-handler
storage block creates a live message list entry for that id holding exactly
the new message (appended at the end of the messages map); the room
histories are untouched (no history entry is created) and so is every
other registry store. -/
theorem claim_C3_append_unknown_room (st : ServerState) (rid : String) (m : Message) (now : Nat)
    (hmsg : alLookup rid st.messages = none)
    (hhist : alLookup rid st.room_histories = none) :
    (appendMessage st rid m now).messages = st.messages ++ [(rid, [m])] ∧
      alLookup rid (appendMessage st rid m now).messages = some [m] ∧
      (appendMessage st rid m now).room_histories = st.room_histories ∧
      (appendMessage st rid m now).active_connections = st.active_connections ∧
      (appendMessage st rid m now).users = st.users ∧
      (appendMessage st rid m now).rooms = st.rooms := by
  unfold appendMessage
  rw [hhist]
  refine ⟨?_, ?_, rfl, rfl, rfl, rfl⟩
  · simp only [hmsg, Option.getD_none, List.nil_append]
    exact alInsert_of_alLookup_none rid [m] st.messages hmsg
  · simp only [hmsg, Option.getD_none, List.nil_append]
    exact alLookup_alInsert_self rid [m] st.messages

/-- Witness instantiating `claim_C3_append_unknown_room` at the empty
registry. -/
theorem claim_C3_append_unknown_room_witness :
    (alLookup "ghost" emptyState.messages = none ∧
        alLookup "ghost" emptyState.room_histories = none) ∧
      alLookup "ghost" (appendMessage emptyState "ghost" msgC3 7).messages = some [msgC3] := by
  refine ⟨⟨rfl, rfl⟩, ?_⟩
  exact (claim_C3_append_unknown_room emptyState "ghost" msgC3 7 rfl rfl).2.1

theorem talkCleanupStage1_lookup (st : ServerState) (uid : String) :
    alLookup uid (talkCleanupStage1 st uid).user_websockets = none := by
  unfold talkCleanupStage1
  cases hx : alLookup uid st.user_websockets with
  | none => simp [hx]
  | some v =>
    simp only [hx, Option.isSome_some, if_true]
    exact alLookup_alErase_self uid st.user_websockets

theorem talkCleanupStage2_lookup (st : ServerState) (uid : String) :
    alLookup uid (talkCleanupStage2 st uid).connections = none := by
  unfold talkCleanupStage2
  cases hx : alLookup uid st.connections with
  | none => simp [hx]
  | some v =>
    simp only [hx, Option.isSome_some, if_true]
    exact alLookup_alErase_self uid st.connections

theorem talkCleanupStage1_of_none (st : ServerState) (uid : String)
    (h : alLookup uid st.user_websockets = none) : talkCleanupStage1 st uid = st := by
  simp [talkCleanupStage1, h]

theorem talkCleanupStage2_of_none (st : ServerState) (uid : String)
    (h : alLookup uid st.connections = none) : talkCleanupStage2 st uid = st := by
  simp [talkCleanupStage2, h]

theorem talkCleanupStage1_connections (st : ServerState) (uid : String) :
    (talkCleanupStage1 st uid).connections = st.connections := by
  unfold talkCleanupStage1
  split <;> rfl

theorem talkCleanupStage2_user_websockets (st : ServerState) (uid : String) :
    (talkCleanupStage2 st uid).user_websockets = st.user_websockets := by
  unfold talkCleanupStage2
  split <;> rfl

theorem discardWs_user_websockets (st : ServerState) (rid : String) (ws : Nat) :
    (discardWs st rid ws).user_websockets = st.user_websockets := by
  unfold discardWs
  split <;> rfl

theorem discardWs_connections (st : ServerState) (rid : String) (ws : Nat) :
    (discardWs st rid ws).connections = st.connections := by
  unfold discardWs
  split <;> rfl

theorem discardWs_idem (st : ServerState) (rid : String) (ws : Nat) :
    discardWs (discardWs st rid ws) rid ws = discardWs st rid ws := by
  unfold discardWs
  cases h : alLookup rid st.active_connections with
  | none => simp [h]
  | some conns =>
    simp only [h]
    have hl := alLookup_alInsert_self rid (conns.filter (fun w => w ≠ ws))
      st.active_connections
    simp only [hl]
    have hf := filterIdem (fun w => decide (w ≠ ws)) conns
    rw [hf, alInsert_alInsert_self]

/-- C4 (code bug): on the handshake-failure exit path (the password check
rejected the connection before `user_id` / `room_id` were assigned) both
cleanup blocks raise `UnboundLocalError` instead of being a safe no-op;
when the locals are bound, the talk cleanup never raises and running it a
second time changes nothing. -/
theorem claim_C4_cleanup_paths (st : ServerState) (ws : Nat) :
    (talkCleanup st none none ws).2 = some PyError.unboundLocal ∧
      (updateCleanup st none ws).2 = some PyError.unboundLocal ∧
      ∀ uid rid : String,
        (talkCleanup st (some uid) (some rid) ws).2 = none ∧
          talkCleanup (talkCleanup st (some uid) (some rid) ws).1 (some uid) (some rid) ws =
            ((talkCleanup st (some uid) (some rid) ws).1, none) := by
  refine ⟨rfl, rfl, ?_⟩
  intro uid rid
  refine ⟨rfl, ?_⟩
  set r1 := (talkCleanup st (some uid) (some rid) ws).1 with hr1
  have hr1eq : r1 = discardWs (talkCleanupStage2 (talkCleanupStage1 st uid) uid) rid ws := rfl
  have huw : alLookup uid r1.user_websockets = none := by
    rw [hr1eq, discardWs_user_websockets, talkCleanupStage2_user_websockets]
    exact talkCleanupStage1_lookup st uid
  have hconn : alLookup uid r1.connections = none := by
    rw [hr1eq, discardWs_connections]
    exact talkCleanupStage2_lookup (talkCleanupStage1 st uid) uid
  show (discardWs (talkCleanupStage2 (talkCleanupStage1 r1 uid) uid) rid ws, none) = (r1, none)
  rw [talkCleanupStage1_of_none r1 uid huw, talkCleanupStage2_of_none r1 uid hconn,
    hr1eq, discardWs_idem]

theorem pyOrS_of_truthy (s : String) (b : Option String) (hs : s ≠ "") :
    pyOrS (some s) b = some s := by
  simp [pyOrS, hs]

theorem pyOrS_of_falsy (a b : Option String) (ha : nonEmptyOpt a = none) :
    pyOrS a b = b := by
  cases a with
  | none => rfl
  | some s =>
    by_cases h : s = ""
    · simp [pyOrS, h]
    · simp [nonEmptyOpt, h] at ha

theorem pyOrS_ne (a b : Option String) (p : String)
    (ha : a ≠ some p) (hb : b ≠ some p) : pyOrS a b ≠ some p := by
  cases a with
  | none => simpa [pyOrS] using hb
  | some s =>
    by_cases h : s = ""
    · simpa [pyOrS, h] using hb
    · simpa [pyOrS, h] using ha

/-- C9: with no configured admin password (Python `None` or `""`, both
falsy) the password check always passes; with a configured password and no
supplied password value equal to it, `get_key_view` responds 401
unauthorized, no key material is sent (the response carries no encrypted
bytes), and the server state is unchanged. -/
theorem claim_C9_password_gate (st : ServerState) (req : Request)
    (loadKey : String → Option Nat) (encryptKey : Nat → List Nat → List Nat)
    (newUserId : String) :
    checkPassword req none = true ∧
      checkPassword req (some "") = true ∧
      ∀ p : String, p ≠ "" →
        alLookup "password" req.args ≠ some p →
        alLookup "password" req.form ≠ some p →
        req.jsonGet "password" ≠ some p →
        checkPassword req (some p) = false ∧
          getKeyView st req (some p) loadKey encryptKey newUserId =
            (KeyResponse.unauthorized, st) := by
  refine ⟨rfl, rfl, ?_⟩
  intro p hp hargs hform hjson
  have hpe : passwordExtract req ≠ some p := by
    unfold passwordExtract
    by_cases hgate : (req.jsonTruthy && (req.jsonGet "password").isSome) = true
    · rw [if_pos hgate]
      exact pyOrS_ne _ _ p hargs (pyOrS_ne _ _ p hform hjson)
    · rw [if_neg hgate]
      simp
  have hcp : checkPassword req (some p) = false := by
    show (if p = "" then true else (passwordExtract req == some p)) = false
    rw [if_neg hp]
    exact beq_eq_false_iff_ne.mpr hpe
  refine ⟨hcp, ?_⟩
  unfold getKeyView
  rw [hcp]
  rfl

/-- Witness instantiating `claim_C9_password_gate`: the admin password is
"secret" and the request supplies only the wrong query-string password. -/
theorem claim_C9_password_gate_witness :
    ((("secret" : String) ≠ "") ∧ alLookup "password" reqC9.args ≠ some "secret" ∧
        alLookup "password" reqC9.form ≠ some "secret" ∧
        reqC9.jsonGet "password" ≠ some "secret") ∧
      getKeyView emptyState reqC9 (some "secret") (fun _ => none) (fun _ _ => []) "nid" =
        (KeyResponse.unauthorized, emptyState) := by
  refine ⟨⟨by decide, by decide, by decide, by decide⟩, ?_⟩
  exact ((claim_C9_password_gate emptyState reqC9 (fun _ => none) (fun _ _ => []) "nid").2.2
    "secret" (by decide) (by decide) (by decide) (by decide)).2

/-- Counterexample to C2 as stated: with the username supplied both as a
form field ("alice") and in the JSON request body ("bob"), body-first
priority demands the result "bob", but the extraction returns the form
value "alice". -/
theorem claim_C2_counterexample :
    getStrArg reqC2 "username" = some "alice" ∧
      reqC2.jsonGet "username" = some "bob" ∧
      getStrArg reqC2 "username" ≠ some "bob" := by
  refine ⟨by decide, by decide, by decide⟩

/-- C2 (amended): the extraction priorities the server actually implements.
Public key: uploaded file first (a present file body wins its stage even
when empty), then non-empty form field, then non-empty query parameter,
then non-empty JSON-body value.  Username and other string arguments:
non-empty form field first, then non-empty query parameter, then the
JSON-body value.  Password: the chain is consulted only when a truthy JSON
body with a "password" key is present, and then the priority is query
parameter first, then form field, then body value; otherwise the password
is treated as absent. -/
theorem claim_C2_extraction_order (req : Request) :
    (∀ b, pubkeyFromFiles req = some b → pubkeyExtract req = some b) ∧
      (pubkeyFromFiles req = none →
        ∀ s, nonEmptyOpt (alLookup "pubkey" req.form) = some s →
          pubkeyExtract req = some s) ∧
      (pubkeyFromFiles req = none → nonEmptyOpt (alLookup "pubkey" req.form) = none →
        ∀ s, nonEmptyOpt (alLookup "pubkey" req.args) = some s →
          pubkeyExtract req = some s) ∧
      (pubkeyFromFiles req = none → nonEmptyOpt (alLookup "pubkey" req.form) = none →
        nonEmptyOpt (alLookup "pubkey" req.args) = none → req.jsonTruthy = true →
        pubkeyExtract req = nonEmptyOpt (req.jsonGet "pubkey")) ∧
      (∀ name s, alLookup name req.form = some s → s ≠ "" →
        getStrArg req name = some s) ∧
      (∀ name, nonEmptyOpt (alLookup name req.form) = none →
        ∀ s, alLookup name req.args = some s → s ≠ "" → getStrArg req name = some s) ∧
      (∀ name, nonEmptyOpt (alLookup name req.form) = none →
        nonEmptyOpt (alLookup name req.args) = none → req.jsonTruthy = true →
        ∀ s, req.jsonGet name = some s → getStrArg req name = some s) ∧
      ((req.jsonTruthy = false ∨ req.jsonGet "password" = none) →
        passwordExtract req = none) ∧
      (req.jsonTruthy = true → (req.jsonGet "password").isSome →
        ∀ s, alLookup "password" req.args = some s → s ≠ "" →
          passwordExtract req = some s) := by
  refine ⟨?_, ?_, ?_, ?_, ?_, ?_, ?_, ?_, ?_⟩
  · intro b hb
    unfold pubkeyExtract
    rw [hb]
    rfl
  · intro hf s hs
    unfold pubkeyExtract
    rw [hf, hs]
    rfl
  · intro hf hform s hs
    unfold pubkeyExtract
    rw [hf, hform, hs]
    rfl
  · intro hf hform hargs hjt
    unfold pubkeyExtract
    rw [hf, hform, hargs, hjt]
    rfl
  · intro name s hs hne
    unfold getStrArg
    rw [hs]
    exact pyOrS_of_truthy s _ hne
  · intro name hform s hs hne
    unfold getStrArg
    rw [pyOrS_of_falsy _ _ hform, hs]
    exact pyOrS_of_truthy s _ hne
  · intro name hform hargs hjt s hs
    unfold getStrArg
    rw [pyOrS_of_falsy _ _ hform, pyOrS_of_falsy _ _ hargs, hjt, hs]
    rfl
  · intro hgate
    unfold passwordExtract
    rcases hgate with h | h
    · rw [h]
      rfl
    · rw [h]
      simp
  · intro hjt hps s hs hne
    unfold passwordExtract
    rw [hjt]
    simp only [hps, Bool.and_true, if_true]
    rw [hs]
    exact pyOrS_of_truthy s _ hne

/-- Witness instantiating `claim_C2_extraction_order` on the request that
carries the username in both the form and the JSON body: the form value
wins. -/
theorem claim_C2_extraction_order_witness :
    (alLookup "username" reqC2.form = some "alice" ∧ ("alice" : String) ≠ "") ∧
      getStrArg reqC2 "username" = some "alice" := by
  refine ⟨⟨by decide, by decide⟩, ?_⟩
  exact (claim_C2_extraction_order reqC2).2.2.2.2.1 "username" "alice" (by decide) (by decide)

theorem keysUuidLen_alInsert {α : Type} (k : String) (v : α) (hk : k.length = 36) :
    ∀ l : List (String × α), keysUuidLen l → keysUuidLen (alInsert k v l) := by
  intro l
  induction l with
  | nil =>
    intro _ p hp
    simp only [alInsert, List.mem_singleton] at hp
    rw [hp]
    exact hk
  | cons q t ih =>
    intro hl p hp
    have hq := hl q (List.mem_cons_self q t)
    have ht : keysUuidLen t := fun x hx => hl x (List.mem_cons_of_mem q hx)
    obtain ⟨k1, v1⟩ := q
    by_cases hqk : k1 = k
    · simp only [alInsert, hqk, if_true] at hp
      rcases List.mem_cons.mp hp with h1 | h2
      · rw [h1]
        exact hk
      · exact ht p h2
    · simp only [alInsert, hqk, if_false] at hp
      rcases List.mem_cons.mp hp with h1 | h2
      · rw [h1]
        exact hq
      · exact ih ht p h2

theorem alLookup_none_of_keysUuidLen {α : Type} (nm : String) (hnm : nm.length ≠ 36) :
    ∀ l : List (String × α), keysUuidLen l → alLookup nm l = none := by
  intro l
  induction l with
  | nil => intro _; rfl
  | cons q t ih =>
    intro hl
    have hq := hl q (List.mem_cons_self q t)
    have hqnm : q.1 ≠ nm := fun he => hnm (he ▸ hq)
    obtain ⟨k1, v1⟩ := q
    simp only [alLookup, hqnm, if_false]
    exact ih (fun x hx => hl x (List.mem_cons_of_mem _ hx))

theorem stateKeys_empty : stateKeysUuidLen emptyState := by
  refine ⟨?_, ?_, ?_, ?_⟩ <;> · intro p hp; exact absurd hp (List.not_mem_nil p)

theorem stateKeys_addRoom (r : Room) (st : ServerState) (hr : r.id.length = 36)
    (hst : stateKeysUuidLen st) : stateKeysUuidLen (addRoomToState r st) := by
  obtain ⟨h1, h2, h3, h4⟩ := hst
  exact ⟨keysUuidLen_alInsert r.id r hr st.rooms h1,
    keysUuidLen_alInsert r.id [] hr st.messages h2,
    keysUuidLen_alInsert r.id (mkHistory r.id) hr st.room_histories h3,
    keysUuidLen_alInsert r.id [] hr st.active_connections h4⟩

theorem stateKeys_foldRooms (rs : List Room) :
    ∀ st : ServerState, stateKeysUuidLen st → (∀ r ∈ rs, r.id.length = 36) →
      stateKeysUuidLen (rs.foldl (fun s r => addRoomToState r s) st) := by
  induction rs with
  | nil =>
    intro st h _
    simpa using h
  | cons r t ih =>
    intro st h hr
    simp only [List.foldl_cons]
    exact ih _ (stateKeys_addRoom r st (hr r (List.mem_cons_self r t)) h)
      (fun x hx => hr x (List.mem_cons_of_mem r hx))

theorem stateKeys_createDefaultRooms (ids : List String)
    (hids : ∀ id ∈ ids, id.length = 36) :
    stateKeysUuidLen (createDefaultRooms ids emptyState) := by
  unfold createDefaultRooms
  apply stateKeys_foldRooms _ _ stateKeys_empty
  intro r hr
  simp only [List.mem_map] at hr
  obtain ⟨p, hp, hre⟩ := hr
  rw [← hre]
  exact hids p.2 (List.of_mem_zip hp).2

/-- C10: every room placed in the registry — the default rooms at startup
and each room from the create-room endpoint — is stored under its generated
uuid id, never under its name; a `str(uuid.uuid4())` id has 36 characters
while a valid room name has at most 30, so looking a room name (such as
"general", sent by a connecting client as `room_id`) up in the rooms,
messages, histories, or connection-set maps of such a registry misses the
entry created for that name. -/
theorem claim_C10_rooms_keyed_by_id (ids : List String) (rs : List Room) (nm : String)
    (hids : ∀ id ∈ ids, id.length = 36) (hrs : ∀ r ∈ rs, r.id.length = 36)
    (hnm : nm.length ≤ 30) :
    (∀ (r : Room) (s : ServerState),
        alLookup r.id (addRoomToState r s).rooms = some r ∧
          alLookup r.id (addRoomToState r s).messages = some [] ∧
          alLookup r.id (addRoomToState r s).room_histories = some (mkHistory r.id) ∧
          alLookup r.id (addRoomToState r s).active_connections = some []) ∧
      alLookup nm (registryAfterCreates ids rs).rooms = none ∧
      alLookup nm (registryAfterCreates ids rs).messages = none ∧
      alLookup nm (registryAfterCreates ids rs).room_histories = none ∧
      alLookup nm (registryAfterCreates ids rs).active_connections = none := by
  constructor
  · intro r s
    exact ⟨alLookup_alInsert_self r.id r s.rooms,
      alLookup_alInsert_self r.id [] s.messages,
      alLookup_alInsert_self r.id (mkHistory r.id) s.room_histories,
      alLookup_alInsert_self r.id [] s.active_connections⟩
  · have hst := stateKeys_foldRooms rs _ (stateKeys_createDefaultRooms ids hids) hrs
    have hnm36 : nm.length ≠ 36 := by omega
    obtain ⟨h1, h2, h3, h4⟩ := hst
    exact ⟨alLookup_none_of_keysUuidLen nm hnm36 _ h1,
      alLookup_none_of_keysUuidLen nm hnm36 _ h2,
      alLookup_none_of_keysUuidLen nm hnm36 _ h3,
      alLookup_none_of_keysUuidLen nm hnm36 _ h4⟩

/-- Witness instantiating `claim_C10_rooms_keyed_by_id` with three concrete
uuid-format default-room ids, no further room creations, and the room name
"general". -/
theorem claim_C10_rooms_keyed_by_id_witness :
    ((∀ id ∈ ["11111111-1111-4111-8111-111111111111",
        "22222222-2222-4222-8222-222222222222",
        "33333333-3333-4333-8333-333333333333"], (id : String).length = 36) ∧
      ("general" : String).length ≤ 30) ∧
      alLookup "general"
        (registryAfterCreates ["11111111-1111-4111-8111-111111111111",
          "22222222-2222-4222-8222-222222222222",
          "33333333-3333-4333-8333-333333333333"] []).rooms = none := by
  refine ⟨⟨by decide, by decide⟩, ?_⟩
  exact (claim_C10_rooms_keyed_by_id
    ["11111111-1111-4111-8111-111111111111",
     "22222222-2222-4222-8222-222222222222",
     "33333333-3333-4333-8333-333333333333"] [] "general"
    (by decide) (fun r hr => absurd hr (List.not_mem_nil r)) (by decide)).2.1

theorem powModFuel_eq (n x : Nat) :
    ∀ fuel e, e ≤ fuel → powModFuel n x fuel e = x ^ e % n := by
  intro fuel
  induction fuel with
  | zero =>
    intro e he
    have he0 : e = 0 := by omega
    subst he0
    rfl
  | succ f ih =>
    intro e he
    cases e with
    | zero => rfl
    | succ e' =>
      show (if (e' + 1) % 2 = 0
            then powModFuel n x f ((e' + 1) / 2) * powModFuel n x f ((e' + 1) / 2) % n
            else powModFuel n x f ((e' + 1) / 2) * powModFuel n x f ((e' + 1) / 2) % n * x % n)
          = x ^ (e' + 1) % n
      have hdiv : (e' + 1) / 2 ≤ f := by omega
      rw [ih _ hdiv]
      by_cases hpar : (e' + 1) % 2 = 0
      · rw [if_pos hpar, ← Nat.mul_mod, ← pow_add]
        have h2 : (e' + 1) / 2 + (e' + 1) / 2 = e' + 1 := by omega
        rw [h2]
      · rw [if_neg hpar, ← Nat.mul_mod, Nat.mod_mul_mod, ← pow_add, ← pow_succ]
        have h2 : (e' + 1) / 2 + (e' + 1) / 2 + 1 = e' + 1 := by omega
        rw [h2]

theorem powMod_eq (n x e : Nat) : powMod n x e = x ^ e % n :=
  powModFuel_eq n x e e le_rfl

theorem powMod_lt (n x e : Nat) (hn : 0 < n) : powMod n x e < n := by
  rw [powMod_eq]
  exact Nat.mod_lt _ hn

theorem intToOs_length (k : Nat) : ∀ m, (intToOs k m).length = k := by
  induction k with
  | zero => intro m; rfl
  | succ kk ih =>
    intro m
    rw [intToOs, List.length_append, ih]
    rfl

theorem osToInt_append (l : List Nat) (b : Nat) :
    osToInt (l ++ [b]) = osToInt l * 256 + b := by
  simp [osToInt, List.foldl_append]

theorem osToInt_cons_zero (l : List Nat) : osToInt (0 :: l) = osToInt l := rfl

theorem osToInt_lt (l : List Nat) (h : isBytes l) : osToInt l < 256 ^ l.length := by
  induction l using List.reverseRecOn with
  | nil => simp [osToInt]
  | append_singleton l b ih =>
    rw [osToInt_append, List.length_append]
    have hb : b < 256 := h b (by simp)
    have hl : isBytes l := fun x hx => h x (by simp [hx])
    have hil := ih hl
    have hstep : osToInt l * 256 + b < (osToInt l + 1) * 256 := by omega
    calc osToInt l * 256 + b < (osToInt l + 1) * 256 := hstep
      _ ≤ 256 ^ l.length * 256 := Nat.mul_le_mul_right 256 (by omega)
      _ = 256 ^ (l.length + [b].length) := by rw [List.length_singleton, pow_succ]

theorem intToOs_osToInt (l : List Nat) (h : isBytes l) :
    intToOs l.length (osToInt l) = l := by
  induction l using List.reverseRecOn with
  | nil => rfl
  | append_singleton l b ih =>
    have hb : b < 256 := h b (by simp)
    have hl : isBytes l := fun x hx => h x (by simp [hx])
    rw [osToInt_append, List.length_append, List.length_singleton, intToOs]
    have hdiv : (osToInt l * 256 + b) / 256 = osToInt l := by omega
    have hmod : (osToInt l * 256 + b) % 256 = b := by omega
    rw [hdiv, hmod, ih hl]

theorem osToInt_intToOs (k : Nat) : ∀ m, m < 256 ^ k → osToInt (intToOs k m) = m := by
  induction k with
  | zero =>
    intro m hm
    simp only [pow_zero, Nat.lt_one_iff] at hm
    rw [hm]
    rfl
  | succ n ih =>
    intro m hm
    rw [intToOs, osToInt_append]
    have h2 : m / 256 < 256 ^ n := by
      rw [Nat.div_lt_iff_lt_mul (by norm_num : 0 < 256)]
      calc m < 256 ^ (n + 1) := hm
        _ = 256 ^ n * 256 := by rw [pow_succ]
    rw [ih _ h2]
    omega

theorem xorBytes_length (a b : List Nat) :
    (xorBytes a b).length = min a.length b.length := by
  simp [xorBytes]

theorem xorBytes_cancel : ∀ (a b : List Nat), a.length = b.length →
    xorBytes (xorBytes a b) b = a := by
  intro a
  induction a with
  | nil => intro b _; rfl
  | cons x t ih =>
    intro b hb
    cases b with
    | nil => simp at hb
    | cons y s =>
      simp only [xorBytes, List.zipWith_cons_cons]
      rw [show Nat.xor (Nat.xor x y) y = x from Nat.xor_cancel_right y x]
      have : List.zipWith Nat.xor (List.zipWith Nat.xor t s) s = t := by
        apply ih
        simpa using hb
      rw [this]

theorem isBytes_append (a b : List Nat) (ha : isBytes a) (hb : isBytes b) :
    isBytes (a ++ b) := by
  intro x hx
  rcases List.mem_append.mp hx with h | h
  · exact ha x h
  · exact hb x h

theorem isBytes_take (n : Nat) (l : List Nat) (h : isBytes l) : isBytes (l.take n) :=
  fun x hx => h x (List.take_subset n l hx)

theorem isBytes_xorBytes : ∀ (a b : List Nat), isBytes a → isBytes b →
    isBytes (xorBytes a b) := by
  intro a
  induction a with
  | nil => intro b _ _ x hx; simp [xorBytes] at hx
  | cons x t ih =>
    intro b ha hb
    cases b with
    | nil => intro z hz; simp [xorBytes] at hz
    | cons y s =>
      intro z hz
      simp only [xorBytes, List.zipWith_cons_cons, List.mem_cons] at hz
      rcases hz with hz | hz
      · rw [hz]
        have hx : x < 2 ^ 8 := ha x (List.mem_cons_self x t)
        have hy : y < 2 ^ 8 := hb y (List.mem_cons_self y s)
        exact Nat.xor_lt_two_pow hx hy
      · exact ih s (fun u hu => ha u (List.mem_cons_of_mem x hu))
          (fun u hu => hb u (List.mem_cons_of_mem y hu)) z hz

theorem mgf1Blocks_length (hash : List Nat → List Nat) (hLen : Nat) (seed : List Nat)
    (hhash : ∀ bs, (hash bs).length = hLen) :
    ∀ count i, (mgf1Blocks hash seed count i).length = count * hLen := by
  intro count
  induction count with
  | zero => intro i; simp [mgf1Blocks]
  | succ c ih =>
    intro i
    rw [mgf1Blocks, List.length_append, hhash, ih, Nat.succ_mul, Nat.add_comm]

theorem mgf1Blocks_bytes (hash : List Nat → List Nat) (seed : List Nat)
    (hhash : ∀ bs, isBytes (hash bs)) :
    ∀ count i, isBytes (mgf1Blocks hash seed count i) := by
  intro count
  induction count with
  | zero => intro i x hx; simp [mgf1Blocks] at hx
  | succ c ih =>
    intro i
    rw [mgf1Blocks]
    exact isBytes_append _ _ (hhash _) (ih (i + 1))

theorem mgf1_length (hash : List Nat → List Nat) (hLen : Nat) (seed : List Nat)
    (maskLen : Nat) (hhash : ∀ bs, (hash bs).length = hLen) (hhl : 1 ≤ hLen) :
    (mgf1 hash hLen seed maskLen).length = maskLen := by
  unfold mgf1
  rw [List.length_take, mgf1Blocks_length hash hLen seed hhash]
  have hceil : maskLen ≤ ((maskLen + hLen - 1) / hLen) * hLen := by
    have h1 : hLen * ((maskLen + hLen - 1) / hLen) + (maskLen + hLen - 1) % hLen
        = maskLen + hLen - 1 := Nat.div_add_mod _ _
    have h2 : (maskLen + hLen - 1) % hLen < hLen := Nat.mod_lt _ (by omega)
    rw [Nat.mul_comm]
    generalize hX : hLen * ((maskLen + hLen - 1) / hLen) = X at h1 ⊢
    generalize hM : (maskLen + hLen - 1) % hLen = M at h1 h2
    omega
  omega

theorem mgf1_bytes (hash : List Nat → List Nat) (hLen : Nat) (seed : List Nat)
    (maskLen : Nat) (hhash : ∀ bs, isBytes (hash bs)) :
    isBytes (mgf1 hash hLen seed maskLen) :=
  isBytes_take _ _ (mgf1Blocks_bytes hash seed hhash _ 0)

theorem dropWhile_zeros (m : List Nat) :
    ∀ n : Nat, (List.replicate n 0 ++ 1 :: m).dropWhile (fun b => b == 0) = 1 :: m := by
  intro n
  induction n with
  | zero => simp [List.dropWhile]
  | succ nn ih =>
    rw [List.replicate_succ, List.cons_append, List.dropWhile]
    simp only [beq_self_eq_true]
    exact ih

theorem fermat_pow_mod (p c m : Nat) (hp : Nat.Prime p) :
    m ^ ((p - 1) * c + 1) ≡ m [MOD p] := by
  haveI : Fact (Nat.Prime p) := ⟨hp⟩
  have hz : ((m : ZMod p)) ^ ((p - 1) * c + 1) = (m : ZMod p) := by
    by_cases hm : (m : ZMod p) = 0
    · rw [hm, zero_pow (by omega)]
    · rw [pow_succ, pow_mul, ZMod.pow_card_sub_one_eq_one hm, one_pow, one_mul]
  have h2 : ((m ^ ((p - 1) * c + 1) : Nat) : ZMod p) = ((m : Nat) : ZMod p) := by
    push_cast
    exact hz
  exact (ZMod.natCast_eq_natCast_iff _ _ _).mp h2

/-- RSA inversion: for a valid RSA key (distinct primes `p`, `q` and
exponents with `e * d ≡ 1 mod (p-1)(q-1)`), decrypting an encrypted
residue below the modulus recovers it exactly. -/
theorem rsaRoundNat (p q e d m : Nat) (hp : Nat.Prime p) (hq : Nat.Prime q)
    (hpq : p ≠ q) (hed : e * d ≡ 1 [MOD (p - 1) * (q - 1)]) (hm : m < p * q) :
    powMod (p * q) (powMod (p * q) m e) d = m := by
  have hp2 := hp.two_le
  have hq2 := hq.two_le
  have hn : 0 < p * q := by positivity
  have hphi : 2 ≤ (p - 1) * (q - 1) := by
    rcases Nat.lt_or_ge p 3 with h | h
    · have hq3 : 3 ≤ q := by omega
      calc 2 ≤ q - 1 := by omega
        _ = 1 * (q - 1) := (Nat.one_mul _).symm
        _ ≤ (p - 1) * (q - 1) := Nat.mul_le_mul_right _ (by omega)
    · calc 2 ≤ p - 1 := by omega
        _ = (p - 1) * 1 := (Nat.mul_one _).symm
        _ ≤ (p - 1) * (q - 1) := Nat.mul_le_mul_left _ (by omega)
  have hmod1 : e * d % ((p - 1) * (q - 1)) = 1 := by
    have h := hed
    unfold Nat.ModEq at h
    rwa [Nat.mod_eq_of_lt (by omega : 1 < (p - 1) * (q - 1))] at h
  have hedpos : 1 ≤ e * d := by
    rcases Nat.eq_zero_or_pos (e * d) with h0 | h0
    · rw [h0] at hmod1
      simp at hmod1
    · exact h0
  have hdvd : ((p - 1) * (q - 1)) ∣ (e * d - 1) :=
    (Nat.modEq_iff_dvd' hedpos).mp hed.symm
  obtain ⟨t, htt⟩ := hdvd
  have hed' : e * d = ((p - 1) * (q - 1)) * t + 1 := by omega
  have hedp : e * d = (p - 1) * ((q - 1) * t) + 1 := by
    rw [hed', Nat.mul_assoc]
  have hedq : e * d = (q - 1) * ((p - 1) * t) + 1 := by
    rw [hed']
    ring
  have hmp : m ^ (e * d) ≡ m [MOD p] := by
    rw [hedp]
    exact fermat_pow_mod p _ m hp
  have hmq : m ^ (e * d) ≡ m [MOD q] := by
    rw [hedq]
    exact fermat_pow_mod q _ m hq
  have hcop : Nat.Coprime p q := (Nat.coprime_primes hp hq).mpr hpq
  have hmn : m ^ (e * d) ≡ m [MOD p * q] :=
    (Nat.modEq_and_modEq_iff_modEq_mul hcop).mp ⟨hmp, hmq⟩
  have hchain : (m ^ e % (p * q)) ^ d ≡ m [MOD p * q] := by
    calc (m ^ e % (p * q)) ^ d ≡ (m ^ e) ^ d [MOD p * q] :=
          (Nat.mod_modEq _ _).pow d
      _ = m ^ (e * d) := by rw [← pow_mul]
      _ ≡ m [MOD p * q] := hmn
  rw [powMod_eq, powMod_eq]
  have := hchain
  unfold Nat.ModEq at this
  rw [this]
  exact Nat.mod_eq_of_lt hm

/-- OAEP decoding inverts OAEP encoding: the seed is recovered by xor
cancellation, `DB` likewise, and the `lHash ‖ PS ‖ 01 ‖ M` parse succeeds. -/
theorem oaepUnpad_oaepPad (hash : List Nat → List Nat) (hLen k : Nat)
    (label msg seed : List Nat) (hhash : hashOk hash hLen) (hhl : 1 ≤ hLen)
    (hslen : seed.length = hLen) (hmlen : msg.length + 2 * hLen + 2 ≤ k) :
    oaepUnpad hash hLen k label (oaepPad hash hLen k label msg seed) = some msg := by
  have hhlen : ∀ bs, (hash bs).length = hLen := fun bs => (hhash bs).1
  simp only [oaepPad, oaepUnpad]
  set A := hash label with hA
  set P : List Nat := List.replicate (k - msg.length - 2 * hLen - 2) 0 with hP
  set D := A ++ (P ++ (1 :: msg)) with hD
  set DM := mgf1 hash hLen seed (k - hLen - 1) with hDM
  set MD := xorBytes D DM with hMD
  set SM := mgf1 hash hLen MD hLen with hSM
  set MS := xorBytes seed SM with hMS
  have hAlen : A.length = hLen := by
    rw [hA]
    exact hhlen label
  have hDlen : D.length = k - hLen - 1 := by
    rw [hD, List.length_append, List.length_append, List.length_cons, hAlen, hP,
      List.length_replicate]
    omega
  have hDMlen : DM.length = k - hLen - 1 := by
    rw [hDM]
    exact mgf1_length hash hLen seed _ hhlen hhl
  have hMDlen : MD.length = k - hLen - 1 := by
    rw [hMD, xorBytes_length, hDlen, hDMlen, Nat.min_self]
  have hSMlen : SM.length = hLen := by
    rw [hSM]
    exact mgf1_length hash hLen MD _ hhlen hhl
  have hMSlen : MS.length = hLen := by
    rw [hMS, xorBytes_length, hslen, hSMlen, Nat.min_self]
  have hemlen : (0 :: (MS ++ MD)).length = k := by
    rw [List.length_cons, List.length_append, hMSlen, hMDlen]
    omega
  rw [List.take_left' hMSlen, List.drop_left' hMSlen, ← hSM]
  have hseedrec : xorBytes MS SM = seed := by
    rw [hMS]
    exact xorBytes_cancel seed SM (by rw [hslen, hSMlen])
  rw [hseedrec, ← hDM]
  have hdbrec : xorBytes MD DM = D := by
    rw [hMD]
    exact xorBytes_cancel D DM (by rw [hDlen, hDMlen])
  rw [hdbrec]
  have hDtake : D.take hLen = A := by
    rw [hD]
    exact List.take_left' hAlen
  have hDdrop : D.drop hLen = P ++ (1 :: msg) := by
    rw [hD]
    exact List.drop_left' hAlen
  rw [if_pos ⟨hemlen, trivial, hDtake⟩, hDdrop, hP, dropWhile_zeros]

/-- C7: the RSA-OAEP key-exchange round trip of the source — server-side
`public_key.encrypt(symmetric_key, OAEP(MGF1(SHA-256), SHA-256, label=None))`
followed by client-side `private_key.decrypt` with the same parameters —
returns exactly the original symmetric-key bytes, for every valid RSA key
(distinct primes with `e·d ≡ 1 mod (p−1)(q−1)`, modulus of `k` bytes) and
every message and seed that fit the OAEP size bound.  The hash is abstract
(`hashOk`): both sides fix the same function, SHA-256 in the source. -/
theorem claim_C7_rsa_oaep_roundtrip (hash : List Nat → List Nat)
    (hLen k p q e d : Nat) (msg seed : List Nat)
    (hhash : hashOk hash hLen) (hhl : 1 ≤ hLen)
    (hp : Nat.Prime p) (hq : Nat.Prime q) (hpq : p ≠ q)
    (hed : e * d ≡ 1 [MOD (p - 1) * (q - 1)])
    (hkn : 256 ^ (k - 1) ≤ p * q) (hnk : p * q < 256 ^ k)
    (hmsg : isBytes msg) (hseed : isBytes seed) (hslen : seed.length = hLen)
    (hmlen : msg.length + 2 * hLen + 2 ≤ k) :
    rsaDecryptOAEP hash hLen (p * q) d k
      (rsaEncryptOAEP hash hLen (p * q) e k msg seed) = some msg := by
  have hhlen : ∀ bs, (hash bs).length = hLen := fun bs => (hhash bs).1
  have hhbytes : ∀ bs, isBytes (hash bs) := fun bs => (hhash bs).2
  have hn : 0 < p * q := by
    have := hp.two_le
    have := hq.two_le
    positivity
  set EM := oaepPad hash hLen k [] msg seed with hEM
  -- the encoded message is a byte string of length k with leading zero
  have hpadshape : EM = 0 :: (xorBytes seed (mgf1 hash hLen
      (xorBytes (hash [] ++ (List.replicate (k - msg.length - 2 * hLen - 2) 0 ++ (1 :: msg)))
        (mgf1 hash hLen seed (k - hLen - 1))) hLen) ++
      xorBytes (hash [] ++ (List.replicate (k - msg.length - 2 * hLen - 2) 0 ++ (1 :: msg)))
        (mgf1 hash hLen seed (k - hLen - 1))) := rfl
  have hDbytes : isBytes (hash [] ++ (List.replicate (k - msg.length - 2 * hLen - 2) 0
      ++ (1 :: msg))) := by
    refine isBytes_append _ _ (hhbytes []) (isBytes_append _ _ ?_ ?_)
    · intro x hx
      rw [List.eq_of_mem_replicate hx]
      norm_num
    · intro x hx
      rcases List.mem_cons.mp hx with h | h
      · rw [h]; norm_num
      · exact hmsg x h
  have hEMbytes : isBytes EM := by
    rw [hpadshape]
    intro x hx
    rcases List.mem_cons.mp hx with h | h
    · rw [h]; norm_num
    · rcases List.mem_append.mp h with h2 | h2
      · exact isBytes_xorBytes _ _ hseed (mgf1_bytes hash hLen _ _ hhbytes) x h2
      · exact isBytes_xorBytes _ _ hDbytes (mgf1_bytes hash hLen _ _ hhbytes) x h2
  have hEMtail : isBytes (EM.tail) := fun x hx => hEMbytes x (List.mem_of_mem_tail hx)
  have hEMlen : EM.length = k := by
    rw [hpadshape, List.length_cons, List.length_append, xorBytes_length,
      xorBytes_length, hslen]
    rw [mgf1_length hash hLen _ _ hhlen hhl, mgf1_length hash hLen _ _ hhlen hhl]
    rw [List.length_append, List.length_append, List.length_cons, hhlen [],
      List.length_replicate, Nat.min_self]
    have : hLen + (k - msg.length - 2 * hLen - 2 + (msg.length + 1)) = k - hLen - 1 := by
      omega
    rw [this, Nat.min_self]
    omega
  have hEMval : osToInt EM < p * q := by
    have htl : osToInt EM = osToInt EM.tail := by
      rw [hpadshape]
      rfl
    have hlt := osToInt_lt EM.tail hEMtail
    have htlen : EM.tail.length = k - 1 := by
      rw [hpadshape]
      simp only [List.tail_cons]
      rw [hpadshape] at hEMlen
      simp only [List.length_cons] at hEMlen
      omega
    rw [htl]
    calc osToInt EM.tail < 256 ^ EM.tail.length := hlt
      _ = 256 ^ (k - 1) := by rw [htlen]
      _ ≤ p * q := hkn
  -- decryption recovers the padded block, then unpadding recovers the message
  unfold rsaEncryptOAEP rsaDecryptOAEP
  rw [← hEM]
  rw [osToInt_intToOs k _ (lt_of_lt_of_le (powMod_lt _ _ _ hn) (le_of_lt hnk))]
  rw [rsaRoundNat p q e d (osToInt EM) hp hq hpq hed hEMval]
  have hOsRound : intToOs k (osToInt EM) = EM := by
    rw [show k = EM.length from hEMlen.symm]
    exact intToOs_osToInt EM hEMbytes
  rw [hOsRound, hEM]
  exact oaepUnpad_oaepPad hash hLen k [] msg seed hhash hhl hslen hmlen

/-- Witness instantiating `claim_C7_rsa_oaep_roundtrip` with the toy hash,
the valid RSA key p = 65537, q = 65539, e = d = 65537 (so that
`e·d = (p−1)(q−1) + 1`), modulus length 5 bytes, message `[42]`, and
seed `[7]`. -/
theorem claim_C7_rsa_oaep_roundtrip_witness :
    (hashOk hashW 1 ∧ Nat.Prime 65537 ∧ Nat.Prime 65539 ∧
        (65537 : Nat) * 65537 ≡ 1 [MOD (65537 - 1) * (65539 - 1)] ∧
        (256 : Nat) ^ (5 - 1) ≤ 65537 * 65539 ∧ (65537 : Nat) * 65539 < 256 ^ 5 ∧
        isBytes [42] ∧ isBytes [7]) ∧
      rsaDecryptOAEP hashW 1 (65537 * 65539) 65537 5
        (rsaEncryptOAEP hashW 1 (65537 * 65539) 65537 5 [42] [7]) = some [42] := by
  have hhash : hashOk hashW 1 := by
    intro bs
    refine ⟨rfl, ?_⟩
    intro b hb
    simp only [hashW, List.mem_singleton] at hb
    rw [hb]
    exact Nat.mod_lt _ (by norm_num)
  have hp : Nat.Prime 65537 := by norm_num
  have hq : Nat.Prime 65539 := by norm_num
  have hm42 : isBytes [42] := by unfold isBytes; decide
  have hs7 : isBytes [7] := by unfold isBytes; decide
  refine ⟨⟨hhash, hp, hq, by decide, by decide, by decide, hm42, hs7⟩, ?_⟩
  exact claim_C7_rsa_oaep_roundtrip hashW 1 5 65537 65539 65537 65537 [42] [7]
    hhash (by decide) hp hq (by decide) (by decide) (by decide) (by decide)
    hm42 hs7 (by decide) (by decide)

end CmdChat
